import Mathlib

/-!
Shallow embedding of the per-cycle evaluation logic of
`src/strategies/simple_strategy.rs` (the `SimpleStrategy` lending bot).

Modelling conventions:
* `f64` values (rates, amounts, balances) are modelled as `ℚ`; the float
  literals `0.99`, `0.01`, `1.`, `0.` of the source become the exact
  rationals `99 / 100`, `1 / 100`, `1`, `0`.
* `usize` is modelled as `ℕ` together with the bound `< 2 ^ 64` where the
  source could wrap; the `nth_highest_candle - 1` subtraction of
  `get_highest_rate` is modelled with the release-mode wrap-around
  `(nth + (2 ^ 64 - 1)) % 2 ^ 64`, and an out-of-range index yields the
  explicit panic error value.
* Network queries are inputs: the wallet response, the active-offers
  response and the candle response (a function of the requested period)
  are parameters of `execute`.  Mutating API calls (cancel-all, cancel,
  submit) are recorded in an emitted `Action` trace, in call order.
* `Result<T>` becomes `Except String T`; the `?` operator becomes the
  evident short-circuit.  The one mutating call whose failure changes
  the visible behaviour (the single-offer cancel, whose `?` aborts the
  cycle before the replacement submit) gets an explicit success flag
  `cancelOk`.
-/

namespace Finex

/-- Funding offer type of the exchange API; the strategy only ever uses
`Limit` (source line 288). -/
inductive FundingOfferType where
  | limit
  deriving Repr, DecidableEq

/-- A historical candle; only the `high` field is consumed by the
strategy (`candles[_].high`, source lines 145-147). -/
structure Candle where
  high : ℚ
  deriving Repr, DecidableEq

/-- An active funding offer as returned by the exchange: its id, amount
and per-day rate (the fields read at source lines 259-269). -/
structure FundingOffer where
  id : ℤ
  amount : ℚ
  rate : ℚ
  deriving Repr, DecidableEq

/-- A funding wallet snapshot: total `balance` and unencumbered
`available_balance` (source lines 156-160). -/
structure WalletResp where
  balance : ℚ
  available_balance : ℚ
  deriving Repr, DecidableEq

/-- The configuration fields of `SimpleStrategy` that the per-cycle
evaluation logic reads (source lines 33-43; `name`, `client`, `currency`
and `monitored_window` only affect logging and the network fetches,
which are inputs here). -/
structure SimpleStrategy where
  min_amount : ℚ
  max_balance_percent_per_loan : ℚ
  min_rate : ℚ
  target_period : ℕ
  nth_highest_candle : ℕ
  deriving Repr, DecidableEq

/-- A mutating exchange-API call made during one evaluation cycle. -/
inductive Action where
  | cancelAllFundingOffers
  | cancelFundingOffer (id : ℤ)
  | submitFundingOffer (ty : FundingOfferType) (amount : ℚ) (rate : ℚ)
      (period : ℕ) (hidden : Bool)
  deriving Repr, DecidableEq

/-- The order the sort at source line 145 establishes: `a` may precede
`b` exactly when `b.high ≤ a.high` (the comparator compares `b.high`
against `a.high`, so the list ends up descending by `high`). -/
def highGE (a b : Candle) : Prop := b.high ≤ a.high

instance : DecidableRel highGE := fun a b => inferInstanceAs (Decidable (b.high ≤ a.high))

instance : IsTotal Candle highGE := ⟨fun a b => le_total b.high a.high⟩

instance : IsTrans Candle highGE := ⟨fun _ _ _ h1 h2 => le_trans h2 h1⟩

/-- The stable descending-by-`high` sort of source line 145.  Rust's
`sort_by` is a stable sort; `List.insertionSort` is stable for the same
total preorder, and any two stable sorts under one total preorder agree,
so this is observationally the source's sort. -/
def sortByHighDesc (candles : List Candle) : List Candle :=
  candles.insertionSort highGE

/-- `SimpleStrategy::get_highest_rate` (source lines 118-148), after the
candle fetch: guard on the candle count, sort descending by `high`, and
index at `nth_highest_candle - 1`.  The subtraction is the wrap-around of
a release-mode `usize`, and indexing out of bounds is the panic case. -/
def get_highest_rate (nth_highest_candle : ℕ) (candles : List Candle) :
    Except String ℚ :=
  if candles.length < nth_highest_candle then
    .error "Not enough candles fetched"
  else
    match (sortByHighDesc candles)[(nth_highest_candle + (2 ^ 64 - 1)) % 2 ^ 64]? with
    | some c => .ok c.high
    | none => .error "panicked at index out of bounds"

/-- `SimpleStrategy::active_offer` (source lines 88-115), after the
active-offers fetch: with more than one active offer, cancel all offers
for the currency and bail; otherwise `Vec::pop` the (at most one)
remaining offer, i.e. take the last element. -/
def active_offer (active_offers : List FundingOffer) :
    Except String (Option FundingOffer) × List Action :=
  if active_offers.length > 1 then
    (.error "Detected multiple active offers, which have all been canceled",
      [.cancelAllFundingOffers])
  else
    (.ok active_offers.getLast?, [])

/-- `SimpleStrategy::compute_balances` (source lines 151-163): available
balance plus the amount locked in the active offer if any, and the total
balance. -/
def compute_balances (funding_wallet : WalletResp)
    (active_offer : Option FundingOffer) : ℚ × ℚ :=
  (funding_wallet.available_balance +
      (active_offer.map FundingOffer.amount).getD 0,
    funding_wallet.balance)

/-- Source lines 236-248: query the nth highest rate at `target_period`;
if it is below `min_rate` and the period is greater than 2, re-query
once with period 2 and use that result, whatever it is.  Returns the
rate together with the period finally used. -/
def discover_with_retry (s : SimpleStrategy) (candles : ℕ → List Candle) :
    Except String (ℚ × ℕ) :=
  match get_highest_rate s.nth_highest_candle (candles s.target_period) with
  | .error e => .error e
  | .ok rate =>
    if rate < s.min_rate ∧ s.target_period > 2 then
      match get_highest_rate s.nth_highest_candle (candles 2) with
      | .error e => .error e
      | .ok rate2 => .ok (rate2, 2)
    else
      .ok (rate, s.target_period)

/-- The periods at which `get_highest_rate` is invoked by the logic of
source lines 236-248, in call order: always `target_period` first, then
`2` exactly when the first call succeeded with a rate below `min_rate`
and `target_period > 2`. -/
def discovery_calls (s : SimpleStrategy) (candles : ℕ → List Candle) : List ℕ :=
  match get_highest_rate s.nth_highest_candle (candles s.target_period) with
  | .error _ => [s.target_period]
  | .ok rate =>
    if rate < s.min_rate ∧ s.target_period > 2 then [s.target_period, 2]
    else [s.target_period]

/-- The amount clamp of source lines 253-256:
`min_amount.max(available_balance.min(total_balance * max_balance_percent_per_loan))`. -/
def loan_amount (min_amount available_balance cap : ℚ) : ℚ :=
  max min_amount (min available_balance cap)

/-- `SimpleStrategy::execute` (source lines 218-308).  Inputs are the
wallet response, the active-offers response, the candle responses per
requested period, and whether a single-offer cancel call succeeds.
Returns the cycle outcome and the trace of mutating API calls. -/
def execute (s : SimpleStrategy) (funding_wallet : WalletResp)
    (active_offers : List FundingOffer) (candles : ℕ → List Candle)
    (cancelOk : Bool) : Except String Unit × List Action :=
  match active_offer active_offers with
  | (.error e, acts) => (.error e, acts)
  | (.ok ao, _) =>
    let bals := compute_balances funding_wallet ao
    let available_balance := bals.1
    let total_balance := bals.2
    if available_balance < s.min_amount then
      (.ok (), [])
    else
      match discover_with_retry s candles with
      | .error e => (.error e, [])
      | .ok rp =>
        let rate := rp.1 * (99 / 100)
        let period := rp.2
        let amt := loan_amount s.min_amount available_balance
          (total_balance * s.max_balance_percent_per_loan)
        match ao with
        | some active =>
          if |active.rate - rate| / rate > 1 / 100 ∨ active.amount - amt > 1 then
            if cancelOk then
              (.ok (), [.cancelFundingOffer active.id,
                .submitFundingOffer .limit amt rate period true])
            else
              (.error "cancel funding offer failed", [.cancelFundingOffer active.id])
          else
            (.ok (), [])
        | none =>
          (.ok (), [.submitFundingOffer .limit amt rate period true])

/-! ### Helper lemmas -/

instance {ε α : Type} [DecidableEq ε] [DecidableEq α] : DecidableEq (Except ε α) := fun x y =>
  match x, y with
  | .ok a, .ok b => if h : a = b then .isTrue (by rw [h]) else .isFalse (by simp [h])
  | .error a, .error b => if h : a = b then .isTrue (by rw [h]) else .isFalse (by simp [h])
  | .ok _, .error _ => .isFalse (by simp)
  | .error _, .ok _ => .isFalse (by simp)

/-- Stability of the sort of source line 145: the candles holding any
fixed `high` value keep their relative fetch order. -/
theorem sortByHighDesc_filter_eq (l : List Candle) (v : ℚ) :
    (sortByHighDesc l).filter (fun c => decide (c.high = v)) =
      l.filter (fun c => decide (c.high = v)) := by
  set p : Candle → Bool := fun c => decide (c.high = v) with hp
  have hpw : (l.filter p).Pairwise highGE := by
    refine List.pairwise_of_forall_mem_list ?_
    intro a ha b hb
    have ha' : a.high = v := by simpa [hp] using (List.mem_filter.mp ha).2
    have hb' : b.high = v := by simpa [hp] using (List.mem_filter.mp hb).2
    unfold highGE
    rw [ha', hb']
  have h1 : List.Sublist (l.filter p) (sortByHighDesc l) :=
    List.sublist_insertionSort hpw (List.filter_sublist l)
  have h3 := h1.filter p
  rw [List.filter_eq_self.mpr (fun a ha => (List.mem_filter.mp ha).2)] at h3
  have h4 : List.Perm ((sortByHighDesc l).filter p) (l.filter p) :=
    (List.perm_insertionSort highGE l).filter p
  exact (h3.eq_of_length h4.length_eq.symm).symm

/-- The descending sort keeps the candle count. -/
theorem sortByHighDesc_length (l : List Candle) :
    (sortByHighDesc l).length = l.length :=
  List.length_insertionSort highGE l

theorem loan_amount_ge (m ab cap : ℚ) : m ≤ loan_amount m ab cap :=
  le_max_left m (min ab cap)

theorem loan_amount_le_avail (m ab cap : ℚ) (h : m ≤ ab) :
    loan_amount m ab cap ≤ ab :=
  max_le h (min_le_left ab cap)

theorem loan_amount_le_cap (m ab cap : ℚ) : loan_amount m ab cap ≤ max m cap :=
  max_le (le_max_left m cap) ((min_le_right ab cap).trans (le_max_right m cap))

theorem loan_amount_mono (m cap : ℚ) {a1 a2 : ℚ} (h : a1 ≤ a2) :
    loan_amount m a1 cap ≤ loan_amount m a2 cap :=
  max_le_max le_rfl (min_le_min h le_rfl)


/-- C2: rate discovery fails with the insufficient-data error when fewer
candles were returned than `nth_highest`; otherwise it sorts the candles
by `high` descending with a stable sort (candles of equal `high` keep
their original fetch order) and returns the `high` of the candle at
1-based rank `nth_highest`; for highs `[1, 5, 3, 9, 2]` and
`nth_highest_candle = 2` it returns `5`. -/
theorem C2_rate_discovery (nth : ℕ) (candles : List Candle)
    (h1 : 1 ≤ nth) (hu : nth < 2 ^ 64) :
    (candles.length < nth →
      get_highest_rate nth candles = .error "Not enough candles fetched") ∧
    (nth ≤ candles.length →
      ∃ c : Candle, (sortByHighDesc candles)[nth - 1]? = some c ∧
        get_highest_rate nth candles = .ok c.high) ∧
    List.Sorted highGE (sortByHighDesc candles) ∧
    (∀ v : ℚ, (sortByHighDesc candles).filter (fun c => decide (c.high = v)) =
      candles.filter (fun c => decide (c.high = v))) ∧
    get_highest_rate 2 [⟨1⟩, ⟨5⟩, ⟨3⟩, ⟨9⟩, ⟨2⟩] = .ok 5 := by
  refine ⟨fun h => ?_, fun h => ?_, List.sorted_insertionSort highGE candles,
    fun v => sortByHighDesc_filter_eq candles v, rfl⟩
  · rw [get_highest_rate, if_pos h]
  · have hidx : (nth + (2 ^ 64 - 1)) % 2 ^ 64 = nth - 1 := by omega
    have hlt : nth - 1 < (sortByHighDesc candles).length := by
      rw [sortByHighDesc_length]; omega
    refine ⟨(sortByHighDesc candles)[nth - 1], List.getElem?_eq_getElem hlt, ?_⟩
    rw [get_highest_rate, if_neg (not_lt.mpr h), hidx,
      List.getElem?_eq_getElem hlt]

/-- C2 witness: the theorem applied at `nth_highest_candle = 2` and the
spec's example candle list. -/
theorem C2_witness : ∃ c : Candle,
    (sortByHighDesc [⟨1⟩, ⟨5⟩, ⟨3⟩, ⟨9⟩, ⟨2⟩])[2 - 1]? = some c ∧
    get_highest_rate 2 [⟨1⟩, ⟨5⟩, ⟨3⟩, ⟨9⟩, ⟨2⟩] = .ok c.high :=
  (C2_rate_discovery 2 [⟨1⟩, ⟨5⟩, ⟨3⟩, ⟨9⟩, ⟨2⟩] (by norm_num)
    (by norm_num)).2.1 (by norm_num)

/-- C10: with `1 ≤ nth_highest_candle` (and `nth` a legal `usize`), the
sort comparator and the index `nth - 1` are safe: the only failure of
`get_highest_rate` is the guarded insufficient-candles error, and a
success value exists whenever enough candles are present; with
`nth_highest_candle = 0` the index wraps around and the lookup is the
out-of-bounds panic.  (Every modelled `high` is a rational, i.e. a
comparable, non-NaN value, matching the claim's comparability
precondition.) -/
theorem C10_index_safety (nth : ℕ) (candles : List Candle)
    (hu : candles.length < 2 ^ 64) :
    (1 ≤ nth → nth < 2 ^ 64 → nth ≤ candles.length →
      ∃ r : ℚ, get_highest_rate nth candles = .ok r) ∧
    (candles.length < nth →
      get_highest_rate nth candles = .error "Not enough candles fetched") ∧
    (1 ≤ candles.length →
      get_highest_rate 0 candles = .error "panicked at index out of bounds") := by
  refine ⟨fun hn hn64 hle => ?_, fun h => by rw [get_highest_rate, if_pos h],
    fun _ => ?_⟩
  · have hidx : (nth + (2 ^ 64 - 1)) % 2 ^ 64 = nth - 1 := by omega
    have hlt : nth - 1 < (sortByHighDesc candles).length := by
      rw [sortByHighDesc_length]; omega
    exact ⟨(sortByHighDesc candles)[nth - 1].high,
      by rw [get_highest_rate, if_neg (not_lt.mpr hle), hidx,
        List.getElem?_eq_getElem hlt]⟩
  · have hidx : (0 + (2 ^ 64 - 1)) % 2 ^ 64 = 2 ^ 64 - 1 := by omega
    have hnone : (sortByHighDesc candles)[2 ^ 64 - 1]? = none := by
      rw [List.getElem?_eq_none]
      rw [sortByHighDesc_length]; omega
    rw [get_highest_rate, if_neg (by omega), hidx, hnone]

/-- C10 witness: the theorem applied at a single candle, in the safe
rank-1 case and in the rank-0 wrap-around case. -/
theorem C10_witness :
    (∃ r : ℚ, get_highest_rate 1 [⟨1⟩] = .ok r) ∧
    get_highest_rate 0 [⟨1⟩] = .error "panicked at index out of bounds" :=
  ⟨(C10_index_safety 1 [⟨1⟩] (by norm_num)).1 (by norm_num) (by norm_num)
      (by norm_num),
    (C10_index_safety 0 [⟨1⟩] (by norm_num)).2.2 (by norm_num)⟩

/-- C5: for fixed `min_amount` and cap `total_balance *
max_balance_percent_per_loan`, the clamped `loan_amount` is
non-decreasing in the available balance and always lies in
`[min_amount, max min_amount cap]`. -/
theorem C5_clamp_monotone_bounds (m cap a1 a2 a : ℚ) (h : a1 ≤ a2) :
    loan_amount m a1 cap ≤ loan_amount m a2 cap ∧
    m ≤ loan_amount m a cap ∧
    loan_amount m a cap ≤ max m cap :=
  ⟨loan_amount_mono m cap h, loan_amount_ge m a cap, loan_amount_le_cap m a cap⟩

/-- C5 witness: the theorem applied at `min_amount = 50`, cap `30`,
available balances `0 ≤ 1` and `100`. -/
theorem C5_witness :
    loan_amount 50 0 30 ≤ loan_amount 50 1 30 ∧
    (50 : ℚ) ≤ loan_amount 50 100 30 ∧
    loan_amount 50 100 30 ≤ max 50 30 :=
  C5_clamp_monotone_bounds 50 30 0 1 100 (by norm_num)

/-- C3: when the discovery at `target_period` succeeds with `r1`, the
period-2 re-query happens exactly once if and only if `r1 < min_rate`
and `target_period > 2`; at most two queries ever happen; without the
retry condition the engine proceeds with `(r1, target_period)`; and
whatever rate `r2` the one retry finds (even below `min_rate`), the
engine proceeds with `(r2, 2)` without further retry or failure. -/
theorem C3_retry_once (s : SimpleStrategy) (candles : ℕ → List Candle) (r1 : ℚ)
    (h1 : get_highest_rate s.nth_highest_candle (candles s.target_period) = .ok r1) :
    (discovery_calls s candles = [s.target_period, 2] ↔
      r1 < s.min_rate ∧ s.target_period > 2) ∧
    (discovery_calls s candles).length ≤ 2 ∧
    (¬ (r1 < s.min_rate ∧ s.target_period > 2) →
      discover_with_retry s candles = .ok (r1, s.target_period)) ∧
    (∀ r2 : ℚ, r1 < s.min_rate → s.target_period > 2 →
      get_highest_rate s.nth_highest_candle (candles 2) = .ok r2 →
      discover_with_retry s candles = .ok (r2, 2)) := by
  rw [discovery_calls, discover_with_retry, h1]
  dsimp only
  by_cases hc : r1 < s.min_rate ∧ s.target_period > 2
  · rw [if_pos hc, if_pos hc]
    refine ⟨by simp [hc], by simp, fun h => absurd hc h, fun r2 _ _ h2 => ?_⟩
    rw [h2]
  · rw [if_neg hc, if_neg hc]
    exact ⟨by simp [hc], by simp, fun _ => rfl,
      fun r2 ha hb _ => absurd ⟨ha, hb⟩ hc⟩

/-- C3 witness: the theorem applied at the spec's numbers: target period
10, `min_rate = 0.001`, first rate `0.0005`, retried rate `0.0004`. -/
theorem C3_witness :
    discovery_calls ⟨0, 0, 1/1000, 10, 1⟩
      (fun p => if p = 10 then [⟨1/2000⟩] else [⟨1/2500⟩]) = [10, 2] ∧
    discover_with_retry ⟨0, 0, 1/1000, 10, 1⟩
      (fun p => if p = 10 then [⟨1/2000⟩] else [⟨1/2500⟩]) = .ok (1/2500, 2) := by
  have h := C3_retry_once ⟨0, 0, 1/1000, 10, 1⟩
    (fun p => if p = 10 then [⟨1/2000⟩] else [⟨1/2500⟩]) (1/2000)
    (by norm_num [get_highest_rate, sortByHighDesc])
  exact ⟨h.1.mpr ⟨by norm_num, by norm_num⟩,
    h.2.2.2 (1/2500) (by norm_num) (by norm_num)
      (by norm_num [get_highest_rate, sortByHighDesc])⟩


/-- C6: with two or more active offers, whatever their contents, the
evaluation makes exactly one cancel-all call and fails with the
duplicate-offers error, submitting nothing; the next cycle is a fresh
run of the same pure function. -/
theorem C6_duplicate_offers (s : SimpleStrategy) (w : WalletResp)
    (offers : List FundingOffer) (candles : ℕ → List Candle) (cancelOk : Bool)
    (h : 2 ≤ offers.length) :
    execute s w offers candles cancelOk =
      (.error "Detected multiple active offers, which have all been canceled",
        [.cancelAllFundingOffers]) := by
  rw [execute, active_offer, if_pos (by omega)]

/-- C6 witness: the theorem applied to two concrete offers. -/
theorem C6_witness :
    execute ⟨50, 1, 0, 2, 1⟩ ⟨100, 100⟩ [⟨1, 10, 1/100⟩, ⟨2, 20, 2/100⟩]
      (fun _ => [⟨1/1000⟩]) true =
      (.error "Detected multiple active offers, which have all been canceled",
        [.cancelAllFundingOffers]) :=
  C6_duplicate_offers ⟨50, 1, 0, 2, 1⟩ ⟨100, 100⟩ [⟨1, 10, 1/100⟩, ⟨2, 20, 2/100⟩]
    (fun _ => [⟨1/1000⟩]) true (by norm_num)

/-- C7: with at most one active offer and an available balance (wallet
available balance plus the amount of the active offer, if any) strictly
below `min_amount`, the evaluation skips: it succeeds with an empty
mutation trace, and its result does not depend on the candle data or on
the cancel outcome — no rate discovery is consulted. -/
theorem C7_insufficient_balance (s : SimpleStrategy) (w : WalletResp)
    (offers : List FundingOffer) (candles candles2 : ℕ → List Candle)
    (cancelOk cancelOk2 : Bool) (hlen : offers.length ≤ 1)
    (hbal : (compute_balances w offers.getLast?).1 < s.min_amount) :
    execute s w offers candles cancelOk = (.ok (), []) ∧
    execute s w offers candles cancelOk = execute s w offers candles2 cancelOk2 := by
  have hmain : ∀ (cs : ℕ → List Candle) (ck : Bool),
      execute s w offers cs ck = (.ok (), []) := by
    intro cs ck
    rw [execute, active_offer, if_neg (by omega)]
    dsimp only
    rw [if_pos hbal]
  exact ⟨hmain candles cancelOk, (hmain candles cancelOk).trans (hmain candles2 cancelOk2).symm⟩

/-- C7 witness: the theorem applied at the spec's numbers,
`available_balance = 10` against `min_amount = 50`, with two unrelated
candle inputs. -/
theorem C7_witness :
    execute ⟨50, 1, 0, 2, 1⟩ ⟨10, 10⟩ [] (fun _ => [⟨1/1000⟩]) true = (.ok (), []) ∧
    execute ⟨50, 1, 0, 2, 1⟩ ⟨10, 10⟩ [] (fun _ => [⟨1/1000⟩]) true =
      execute ⟨50, 1, 0, 2, 1⟩ ⟨10, 10⟩ [] (fun _ => []) false :=
  C7_insufficient_balance ⟨50, 1, 0, 2, 1⟩ ⟨10, 10⟩ [] (fun _ => [⟨1/1000⟩])
    (fun _ => []) true false (by norm_num)
    (by norm_num [compute_balances])


/-- Reduction of `execute` on the path with at most one active offer, a
passing balance check and a successful rate discovery. -/
theorem execute_le1_offers (s : SimpleStrategy) (w : WalletResp)
    (offers : List FundingOffer) (candles : ℕ → List Candle) (cancelOk : Bool)
    (hlen : offers.length ≤ 1) (r : ℚ) (p : ℕ)
    (hbal : ¬ ((compute_balances w offers.getLast?).1 < s.min_amount))
    (hdisc : discover_with_retry s candles = .ok (r, p)) :
    execute s w offers candles cancelOk =
      (let rate := r * (99 / 100)
      let amt := loan_amount s.min_amount (compute_balances w offers.getLast?).1
        ((compute_balances w offers.getLast?).2 * s.max_balance_percent_per_loan)
      match offers.getLast? with
      | some active =>
        if |active.rate - rate| / rate > 1 / 100 ∨ active.amount - amt > 1 then
          if cancelOk then
            (.ok (), [.cancelFundingOffer active.id,
              .submitFundingOffer .limit amt rate p true])
          else
            (.error "cancel funding offer failed", [.cancelFundingOffer active.id])
        else
          (.ok (), [])
      | none => (.ok (), [.submitFundingOffer .limit amt rate p true])) := by
  rw [execute, active_offer, if_neg (by omega)]
  dsimp only
  rw [if_neg hbal, hdisc]


/-- C8: for every evaluation that reaches submission — on either the
bare-submit path or the cancel-and-replace path — the submitted rate is
the discovered rate times `0.99` and the submitted period is the
discovery period, as a hidden limit offer; with no active offer the
cycle is a single hidden limit submit of the clamped loan amount at
that rate; the spec's end-to-end example (available balance 100,
`min_amount` 50, discovered rate `0.001`, cap allowing 100) yields the
submit of 100 at `0.00099` for the target period. -/
theorem C8_submit_discounted (s : SimpleStrategy) (w : WalletResp)
    (offers : List FundingOffer) (candles : ℕ → List Candle) (cancelOk : Bool)
    (ty : FundingOfferType) (a rt : ℚ) (p : ℕ) (hid : Bool)
    (hmem : Action.submitFundingOffer ty a rt p hid ∈
      (execute s w offers candles cancelOk).2) :
    (∃ r : ℚ, discover_with_retry s candles = .ok (r, p) ∧
      rt = r * (99 / 100) ∧ ty = .limit ∧ hid = true) ∧
    (∀ (r : ℚ) (p' : ℕ) (cOk : Bool), ¬ (w.available_balance < s.min_amount) →
      discover_with_retry s candles = .ok (r, p') →
      execute s w [] candles cOk =
        (.ok (), [.submitFundingOffer .limit
          (loan_amount s.min_amount w.available_balance
            (w.balance * s.max_balance_percent_per_loan))
          (r * (99 / 100)) p' true])) ∧
    execute ⟨50, 1, 0, 30, 1⟩ ⟨100, 100⟩ [] (fun _ => [⟨1/1000⟩]) true =
      (.ok (), [.submitFundingOffer .limit 100 (99/100000) 30 true]) := by
  refine ⟨?_, ?_, ?_⟩
  · by_cases hlen : offers.length > 1
    · have heq : execute s w offers candles cancelOk =
          (.error "Detected multiple active offers, which have all been canceled",
            [.cancelAllFundingOffers]) := by
        rw [execute, active_offer, if_pos hlen]
      rw [heq] at hmem
      simp at hmem
    · by_cases hbal : (compute_balances w offers.getLast?).1 < s.min_amount
      · have heq : execute s w offers candles cancelOk = (.ok (), []) := by
          rw [execute, active_offer, if_neg hlen]
          dsimp only
          rw [if_pos hbal]
        rw [heq] at hmem
        simp at hmem
      · rcases hdr : discover_with_retry s candles with e | rp
        · have heq : execute s w offers candles cancelOk = (.error e, []) := by
            rw [execute, active_offer, if_neg hlen]
            dsimp only
            rw [if_neg hbal, hdr]
          rw [heq] at hmem
          simp at hmem
        · have h := execute_le1_offers s w offers candles cancelOk (by omega)
            rp.1 rp.2 hbal (by rw [hdr])
          rcases hlast : offers.getLast? with _ | active
          · rw [hlast] at h
            dsimp only at h
            rw [h] at hmem
            simp only [List.mem_singleton] at hmem
            injection hmem with h1 h2 h3 h4 h5
            subst h3
            subst h4
            exact ⟨rp.1, by rw [Prod.mk.eta], rfl, h1, h5⟩
          · rw [hlast] at h
            dsimp only at h
            by_cases hcond : |active.rate - rp.1 * (99 / 100)| / (rp.1 * (99 / 100)) > 1 / 100 ∨
                active.amount - loan_amount s.min_amount (compute_balances w (some active)).1
                  ((compute_balances w (some active)).2 * s.max_balance_percent_per_loan) > 1
            · rw [if_pos hcond] at h
              cases cancelOk
              · rw [if_neg (by simp)] at h
                rw [h] at hmem
                simp at hmem
              · rw [if_pos rfl] at h
                rw [h] at hmem
                simp only [List.mem_cons, List.mem_singleton, List.not_mem_nil,
                  or_false] at hmem
                rcases hmem with heq | heq
                · exact absurd heq (by simp)
                · injection heq with h1 h2 h3 h4 h5
                  subst h3
                  subst h4
                  exact ⟨rp.1, by rw [Prod.mk.eta], rfl, h1, h5⟩
            · rw [if_neg hcond] at h
              rw [h] at hmem
              simp at hmem
  · intro r p' cOk hbal hdisc
    have h := execute_le1_offers s w [] candles cOk (by norm_num) r p'
      (by simpa [compute_balances] using hbal) hdisc
    simpa [compute_balances] using h
  · norm_num [execute, active_offer, compute_balances, discover_with_retry,
      get_highest_rate, sortByHighDesc, loan_amount, highGE]

/-- C8 witness: the theorem applied at a cancel-and-replace cycle,
whose replacement submit carries the discounted discovered rate. -/
theorem C8_witness :
    ∃ r : ℚ, discover_with_retry ⟨50, 1, 0, 2, 1⟩ (fun _ => [⟨1/1000⟩]) =
        .ok (r, 2) ∧
      (99/100000 : ℚ) = r * (99 / 100) ∧
      FundingOfferType.limit = FundingOfferType.limit ∧ true = true :=
  (C8_submit_discounted ⟨50, 1, 0, 2, 1⟩ ⟨100, 60⟩ [⟨7, 40, 1/10⟩]
    (fun _ => [⟨1/1000⟩]) true .limit 100 (99/100000) 2 true
    (by norm_num [execute, active_offer, compute_balances, discover_with_retry,
      get_highest_rate, sortByHighDesc, loan_amount, highGE, abs])).1


/-- C1: with exactly one active offer, a passing balance check and a
successful rate discovery, the offer is cancelled (by id) and replaced
by a submit of the clamped loan amount at the discounted final rate for
the period used, if and only if the rate differs relatively by more
than `0.01` or the active amount exceeds the desired amount by more
than `1` (signed difference); otherwise the evaluation skips with no
mutating call, leaving the offer standing. -/
theorem C1_replace_iff (s : SimpleStrategy) (w : WalletResp)
    (active : FundingOffer) (candles : ℕ → List Candle) (r : ℚ) (p : ℕ)
    (hbal : ¬ (w.available_balance + active.amount < s.min_amount))
    (hdisc : discover_with_retry s candles = .ok (r, p)) :
    (execute s w [active] candles true =
        (.ok (), [.cancelFundingOffer active.id,
          .submitFundingOffer .limit
            (loan_amount s.min_amount (w.available_balance + active.amount)
              (w.balance * s.max_balance_percent_per_loan))
            (r * (99 / 100)) p true]) ↔
      (|active.rate - r * (99 / 100)| / (r * (99 / 100)) > 1 / 100 ∨
        active.amount - loan_amount s.min_amount (w.available_balance + active.amount)
          (w.balance * s.max_balance_percent_per_loan) > 1)) ∧
    (¬ (|active.rate - r * (99 / 100)| / (r * (99 / 100)) > 1 / 100 ∨
        active.amount - loan_amount s.min_amount (w.available_balance + active.amount)
          (w.balance * s.max_balance_percent_per_loan) > 1) →
      execute s w [active] candles true = (.ok (), [])) := by
  have h := execute_le1_offers s w [active] candles true (by norm_num) r p
    (by simpa [compute_balances] using hbal) hdisc
  simp only [List.getLast?_singleton, compute_balances, Option.map_some',
    Option.getD_some, if_true] at h
  constructor
  · constructor
    · intro heq
      by_contra hcond
      rw [h, if_neg hcond] at heq
      simp at heq
    · intro hcond
      rw [h, if_pos hcond]
  · intro hcond
    rw [h, if_neg hcond]

/-- C1 witness: the theorem applied at a concrete state whose active
offer is far off the final rate, hence cancelled and replaced. -/
theorem C1_witness :
    execute ⟨50, 1, 0, 2, 1⟩ ⟨100, 60⟩ [⟨7, 40, 1/10⟩] (fun _ => [⟨1/1000⟩]) true =
      (.ok (), [.cancelFundingOffer 7,
        .submitFundingOffer .limit (loan_amount 50 (60 + 40) (100 * 1))
          ((1/1000) * (99 / 100)) 2 true]) := by
  have h := C1_replace_iff ⟨50, 1, 0, 2, 1⟩ ⟨100, 60⟩ ⟨7, 40, 1/10⟩
    (fun _ => [⟨1/1000⟩]) (1/1000) 2 (by norm_num)
    (by norm_num [discover_with_retry, get_highest_rate, sortByHighDesc])
  exact h.1.mpr (by left; norm_num [loan_amount, abs_of_pos])


/-- Exhaustive shape analysis of one evaluation cycle: the cycle is the
duplicate-offers remediation, a no-mutation outcome, a bare submit, a
cancel followed in the same cycle by a submit (when the cancel call
succeeds), or a failed cancel that aborts the cycle. -/
theorem execute_shapes (s : SimpleStrategy) (w : WalletResp)
    (offers : List FundingOffer) (candles : ℕ → List Candle) (cancelOk : Bool) :
    execute s w offers candles cancelOk =
      (.error "Detected multiple active offers, which have all been canceled",
        [.cancelAllFundingOffers]) ∨
    (execute s w offers candles cancelOk).2 = [] ∨
    (∃ a rt p, execute s w offers candles cancelOk =
      (.ok (), [.submitFundingOffer .limit a rt p true])) ∨
    (cancelOk = true ∧ ∃ i a rt p, execute s w offers candles cancelOk =
      (.ok (), [.cancelFundingOffer i, .submitFundingOffer .limit a rt p true])) ∨
    (cancelOk = false ∧ ∃ i, execute s w offers candles cancelOk =
      (.error "cancel funding offer failed", [.cancelFundingOffer i])) := by
  by_cases hlen : offers.length > 1
  · left
    rw [execute, active_offer, if_pos hlen]
  · right
    by_cases hbal : (compute_balances w offers.getLast?).1 < s.min_amount
    · left
      rw [execute, active_offer, if_neg hlen]
      dsimp only
      rw [if_pos hbal]
    · rcases hdr : discover_with_retry s candles with e | rp
      · left
        rw [execute, active_offer, if_neg hlen]
        dsimp only
        rw [if_neg hbal, hdr]
      · have h := execute_le1_offers s w offers candles cancelOk (by omega)
          rp.1 rp.2 hbal (by rw [hdr])
        rcases hlast : offers.getLast? with _ | active
        · rw [hlast] at h
          right; left
          exact ⟨_, _, _, h⟩
        · rw [hlast] at h
          dsimp only at h
          by_cases hcond : |active.rate - rp.1 * (99 / 100)| / (rp.1 * (99 / 100)) > 1 / 100 ∨
              active.amount - loan_amount s.min_amount (compute_balances w (some active)).1
                ((compute_balances w (some active)).2 * s.max_balance_percent_per_loan) > 1
          · rw [if_pos hcond] at h
            cases cancelOk
            · rw [if_neg (by simp)] at h
              right; right; right
              exact ⟨rfl, active.id, h⟩
            · rw [if_pos rfl] at h
              right; right; left
              exact ⟨rfl, active.id, _, _, _, h⟩
          · rw [if_neg hcond] at h
            left
            rw [h]

/-- C9: when the cancel call succeeds, a cancellation of a lone active
offer is always followed in the same cycle by a replacement submit; a
lone-offer cancel without a submit never ends a successful cycle, so the
only cancel-without-submit path is the cancel-all duplicate
remediation. -/
theorem C9_cancel_followed_by_submit (s : SimpleStrategy) (w : WalletResp)
    (offers : List FundingOffer) (candles : ℕ → List Candle) (i : ℤ)
    (hmem : Action.cancelFundingOffer i ∈ (execute s w offers candles true).2) :
    ∃ a rt p, (execute s w offers candles true).2 =
      [Action.cancelFundingOffer i, Action.submitFundingOffer .limit a rt p true] ∧
      (execute s w offers candles true).1 = Except.ok () := by
  rcases execute_shapes s w offers candles true with
    h | h | ⟨a, rt, p, h⟩ | ⟨-, j, a, rt, p, h⟩ | ⟨hfalse, -⟩
  · rw [h] at hmem
    simp at hmem
  · rw [h] at hmem
    simp at hmem
  · rw [h] at hmem
    simp at hmem
  · rw [h] at hmem
    simp only [List.mem_cons, List.mem_singleton, List.not_mem_nil, or_false] at hmem
    rcases hmem with heq | heq
    · injection heq with hij
      subst hij
      exact ⟨a, rt, p, by rw [h], by rw [h]⟩
    · exact absurd heq (by simp)
  · exact absurd hfalse (by simp)

/-- C9 witness: the theorem applied at a concrete cycle whose active
offer is cancelled and replaced. -/
theorem C9_witness : ∃ a rt p,
    (execute ⟨50, 1, 0, 2, 1⟩ ⟨100, 60⟩ [⟨7, 40, 1/10⟩]
      (fun _ => [⟨1/1000⟩]) true).2 =
      [Action.cancelFundingOffer 7,
        Action.submitFundingOffer .limit a rt p true] ∧
    (execute ⟨50, 1, 0, 2, 1⟩ ⟨100, 60⟩ [⟨7, 40, 1/10⟩]
      (fun _ => [⟨1/1000⟩]) true).1 = Except.ok () :=
  C9_cancel_followed_by_submit ⟨50, 1, 0, 2, 1⟩ ⟨100, 60⟩ [⟨7, 40, 1/10⟩]
    (fun _ => [⟨1/1000⟩]) 7
    (by norm_num [execute, active_offer, compute_balances, discover_with_retry,
      get_highest_rate, sortByHighDesc, loan_amount, highGE, abs])

/-- C4 counterexample: with `min_amount = 50`, total balance 100, cap
fraction `0.3` (so the risk cap is 30) and available balance 100, the
cycle submits `loan_amount = 50`, which exceeds
`total_balance * max_balance_percent_per_loan = 30`; the claim's bound
`loan_amount ≤ total_balance * max_balance_percent_per_loan` fails even
though `available_balance ≥ min_amount` held. -/
theorem C4_counterexample :
    execute ⟨50, 3/10, 0, 2, 1⟩ ⟨100, 100⟩ [] (fun _ => [⟨1/1000⟩]) true =
      (.ok (), [.submitFundingOffer .limit 50 (99/100000) 2 true]) ∧
    ¬ ((50 : ℚ) ≤ 100 * (3/10)) := by
  constructor
  · norm_num [execute, active_offer, compute_balances, discover_with_retry,
      get_highest_rate, sortByHighDesc, loan_amount, highGE]
  · norm_num

/-- C4 as amended: every submitted amount is at least `min_amount`, at
most the available balance, and at most
`max min_amount (total_balance * max_balance_percent_per_loan)` — the
risk cap binds only when it is at least `min_amount`. -/
theorem C4_amended_bounds (s : SimpleStrategy) (w : WalletResp)
    (offers : List FundingOffer) (candles : ℕ → List Candle) (cancelOk : Bool)
    (ty : FundingOfferType) (a rt : ℚ) (p : ℕ) (hid : Bool)
    (hmem : Action.submitFundingOffer ty a rt p hid ∈
      (execute s w offers candles cancelOk).2) :
    s.min_amount ≤ a ∧
    a ≤ (compute_balances w offers.getLast?).1 ∧
    a ≤ max s.min_amount
      ((compute_balances w offers.getLast?).2 * s.max_balance_percent_per_loan) := by
  by_cases hlen : offers.length > 1
  · have heq : execute s w offers candles cancelOk =
        (.error "Detected multiple active offers, which have all been canceled",
          [.cancelAllFundingOffers]) := by
      rw [execute, active_offer, if_pos hlen]
    rw [heq] at hmem
    simp at hmem
  · by_cases hbal : (compute_balances w offers.getLast?).1 < s.min_amount
    · have heq : execute s w offers candles cancelOk = (.ok (), []) := by
        rw [execute, active_offer, if_neg hlen]
        dsimp only
        rw [if_pos hbal]
      rw [heq] at hmem
      simp at hmem
    · have hmle : s.min_amount ≤ (compute_balances w offers.getLast?).1 :=
        not_lt.mp hbal
      rcases hdr : discover_with_retry s candles with e | rp
      · have heq : execute s w offers candles cancelOk = (.error e, []) := by
          rw [execute, active_offer, if_neg hlen]
          dsimp only
          rw [if_neg hbal, hdr]
        rw [heq] at hmem
        simp at hmem
      · have h := execute_le1_offers s w offers candles cancelOk (by omega)
          rp.1 rp.2 hbal (by rw [hdr])
        rcases hlast : offers.getLast? with _ | active
        · rw [hlast] at h hmle
          dsimp only at h
          rw [h] at hmem
          simp only [List.mem_singleton] at hmem
          injection hmem with h1 h2 h3 h4 h5
          subst h2
          exact ⟨loan_amount_ge _ _ _, loan_amount_le_avail _ _ _ hmle,
            loan_amount_le_cap _ _ _⟩
        · rw [hlast] at h hmle
          dsimp only at h
          by_cases hcond : |active.rate - rp.1 * (99 / 100)| / (rp.1 * (99 / 100)) > 1 / 100 ∨
              active.amount - loan_amount s.min_amount (compute_balances w (some active)).1
                ((compute_balances w (some active)).2 * s.max_balance_percent_per_loan) > 1
          · rw [if_pos hcond] at h
            cases cancelOk
            · rw [if_neg (by simp)] at h
              rw [h] at hmem
              simp at hmem
            · rw [if_pos rfl] at h
              rw [h] at hmem
              simp only [List.mem_cons, List.mem_singleton, List.not_mem_nil,
                or_false] at hmem
              rcases hmem with heq | heq
              · exact absurd heq (by simp)
              · injection heq with h1 h2 h3 h4 h5
                subst h2
                exact ⟨loan_amount_ge _ _ _, loan_amount_le_avail _ _ _ hmle,
                  loan_amount_le_cap _ _ _⟩
          · rw [if_neg hcond] at h
            rw [h] at hmem
            simp at hmem

/-- C4 witness: the amended theorem applied at the counterexample
cycle, whose submitted amount 50 respects all three amended bounds. -/
theorem C4_witness :
    (50 : ℚ) ≤ 50 ∧
    (50 : ℚ) ≤ (compute_balances ⟨100, 100⟩ ([] : List FundingOffer).getLast?).1 ∧
    (50 : ℚ) ≤ max 50
      ((compute_balances ⟨100, 100⟩ ([] : List FundingOffer).getLast?).2 * (3/10)) :=
  C4_amended_bounds ⟨50, 3/10, 0, 2, 1⟩ ⟨100, 100⟩ [] (fun _ => [⟨1/1000⟩]) true
    .limit 50 (99/100000) 2 true
    (by norm_num [execute, active_offer, compute_balances, discover_with_retry,
      get_highest_rate, sortByHighDesc, loan_amount, highGE])

end Finex
